import Mathlib

/-!
Verification development for the incremental spell-check range engine
(`spellcheck/spelling_highlighter.cpp`) and the Hunspell dictionary
controller (`spellcheck/third_party/hunspell_controller.cpp`).

The C++ sources are shallowly embedded: pure fragments become Lean
functions over `Int`/`Nat`/`List`, the external collaborators (the
word-boundary oracle `QTextCursor::WordUnderCursor`, the skip policy
`isSkippableWord`, the dictionary backends) are passed in as function
parameters, and the asynchronous completion handlers become explicit
state-transforming functions on a `HighlighterState`.
-/

namespace Spellchecker

/-- Embeds `MisspelledWord`, which is `std::pair<int, int>`: `(offset, length)` of a word
span, denoting the half-open interval `[offset, offset + length)`. -/
abbrev MisspelledWord := Int × Int

/-- Embeds `EndOfWord` from `spelling_highlighter.cpp`: `range.first + range.second`. -/
def EndOfWord (range : MisspelledWord) : Int :=
  range.1 + range.2

/-- Embeds `IntersectsWordRanges(range, pos2, len2)`: closed-interval intersection
test `!(l1 > r2 || l2 > r1)` with `r1 = EndOfWord(range) - 1`,
`r2 = pos2 + len2 - 1`. -/
def IntersectsWordRanges (range : MisspelledWord) (pos2 len2 : Int) : Bool :=
  let l1 := range.1
  let r1 := EndOfWord range - 1
  let l2 := pos2
  let r2 := pos2 + len2 - 1
  !(decide (l1 > r2) || decide (l2 > r1))

/-- The two-range overload of `IntersectsWordRanges`. -/
def IntersectsWordRanges2 (range range2 : MisspelledWord) : Bool :=
  let l1 := range.1
  let r1 := EndOfWord range - 1
  let l2 := range2.1
  let r2 := EndOfWord range2 - 1
  !(decide (l1 > r2) || decide (l2 > r1))

/-- The `shift` lambda of `SpellingHighlighter::contentsChange`: a range
with `first >= pos + removed` has `first += chars`, others are untouched. -/
def shiftRange (pos removed chars : Int) (range : MisspelledWord) : MisspelledWord :=
  if range.1 ≥ pos + removed then (range.1 + chars, range.2) else range

/-- The filter lambda of `SpellingHighlighter::contentsChange`: a range
intersecting `wordUnderPos` is kept exactly when `pos > EndOfWord(wordUnderPos)`
(`isPosNotInWord`); otherwise it is kept unless `removed > 0` and it
intersects the deleted region `[pos, pos + removed)`. -/
def contentsChangeFilter (pos removed : Int) (wordUnderPos : MisspelledWord)
    (range : MisspelledWord) : Bool :=
  if IntersectsWordRanges2 range wordUnderPos then
    decide (pos > EndOfWord wordUnderPos)
  else
    !(IntersectsWordRanges2 range wordUnderPos
      || (decide (removed > 0) && IntersectsWordRanges range pos removed))

/-- The `_cachedRanges` update of `SpellingHighlighter::contentsChange`
(lines 205-242): shift right by `added` (ranges at or past `pos + removed`),
filter out invalidated ranges, then shift left by `removed`. -/
def contentsChangeRanges (cache : List MisspelledWord)
    (pos removed added : Int) (wordUnderPos : MisspelledWord) : List MisspelledWord :=
  let c1 := if added > 0 then cache.map (shiftRange pos removed added) else cache
  let c2 := c1.filter (contentsChangeFilter pos removed wordUnderPos)
  if removed > 0 then c2.map (shiftRange pos removed (-removed)) else c2

/-- The pre-filter shift of `contentsChange` applied to a single range
(`shift(added)`, a no-op when `added = 0`). -/
def addedShift (pos removed added : Int) (range : MisspelledWord) : MisspelledWord :=
  if added > 0 then shiftRange pos removed added range else range

/-- The net translation an edit applies to a surviving range: ranges at or
past `pos + removed` move by `added - removed`, earlier ranges stay put. -/
def netShift (pos removed added : Int) (range : MisspelledWord) : MisspelledWord :=
  if range.1 ≥ pos + removed then (range.1 + added - removed, range.2) else range

/-- Embeds `ranges::insert(_cachedRanges, ranges::find_if(_cachedRanges,
w.first >= posOfWord), singleWord)` from `SpellingHighlighter::checkSingleWord`:
insert the word before the first cached range whose offset is at least the
word's offset. -/
def insertRangeSorted (cache : List MisspelledWord) (word : MisspelledWord) :
    List MisspelledWord :=
  match cache with
  | [] => [word]
  | r :: rs =>
    if r.1 ≥ word.1 then word :: r :: rs else r :: insertRangeSorted rs word

/-- Embeds the region-merge callback of `SpellingHighlighter::checkChangedText`
(lines 300-323): `ranges::insert(_cachedRanges, wordInCacheIt(), std::move(r))`
splices the whole returned batch before the first cached range whose offset
is at least `wordUnderCursor.first` (`posOfWord`), or at the end when no
such range exists. -/
def insertRangesAt (cache : List MisspelledWord) (posOfWord : Int)
    (ranges : List MisspelledWord) : List MisspelledWord :=
  match cache with
  | [] => ranges
  | r :: rs =>
    if r.1 ≥ posOfWord then ranges ++ r :: rs
    else r :: insertRangesAt rs posOfWord ranges

/-- The mutable per-highlighter state touched by the asynchronous completion
handlers: `_cachedRanges`, `_countOfCheckingTextAsync` and `_lastPlainText`. -/
structure HighlighterState where
  cachedRanges : List MisspelledWord
  countOfCheckingTextAsync : Nat
  lastPlainText : List Char
deriving Repr, DecidableEq

/-- Embeds `SpellingHighlighter::partDocumentText`: `_lastPlainText.mid(pos, length)`
(modelled for the non-negative arguments the callers pass). -/
def partDocumentText (text : List Char) (pos length : Int) : List Char :=
  (text.drop pos.toNat).take length.toNat

/-- Embeds `SpellingHighlighter::compareDocumentText`: `-1` when the slice
`[textPos, textPos + textLen)` no longer fits in `_lastPlainText` (the
`midRef` is null), `0` when the captured text equals the current slice, and
a nonzero value otherwise.  The program only ever tests the result against
zero, so the nonzero branch is modelled as `1`. -/
def compareDocumentText (lastPlainText text : List Char) (textPos textLen : Int) : Int :=
  if (lastPlainText.length : Int) < textPos + textLen then -1
  else if textPos < 0 then -1
  else if text = partDocumentText lastPlainText textPos textLen then 0
  else 1

/-- Embeds `SpellingHighlighter::filterSkippableWords`: empty document gives an
empty result, otherwise drop every range for which `isSkippableWord` holds.
The skip predicate (`hasUnspellcheckableTag` / mention / `IsWordSkippable`
over the current document) is passed in as a function. -/
def filterSkippableWords (isSkippableWord : MisspelledWord → Bool)
    (text : List Char) (ranges : List MisspelledWord) : List MisspelledWord :=
  if text.isEmpty then []
  else ranges.filter (fun range => !isSkippableWord range)

/-- The trailing boundary correction of `SpellingHighlighter::invokeCheckText`
(lines 426-436): if the last filtered span ends exactly at the end of the
checked region, and the word under that position in the *current* buffer
(`wordAtEnd`, the oracle's answer to `getWordUnderPosition(endOfText)`) does
not also end there, drop the last span and re-check `wordAtEnd` alone. -/
def trailingBoundaryCorrection (filtered : List MisspelledWord)
    (textPosition textLength : Int) (wordAtEnd : MisspelledWord) :
    List MisspelledWord × Option MisspelledWord :=
  match filtered.getLast? with
  | none => (filtered, none)
  | some lastWord =>
    let endOfText := textPosition + textLength
    if EndOfWord lastWord = endOfText then
      if EndOfWord wordAtEnd ≠ endOfText then
        (filtered.dropLast, some wordAtEnd)
      else (filtered, none)
    else (filtered, none)

/-- Result of one `invokeCheckText` completion: the updated state, whether a
fresh full recheck (`checkCurrentText`) was triggered, and which single word
(if any) was handed to `checkSingleWord` by the trailing correction. -/
structure CheckTextResult where
  state : HighlighterState
  fullRecheck : Bool
  singleRecheck : Option MisspelledWord
deriving Repr, DecidableEq

/-- The `crl::on_main` completion handler of
`SpellingHighlighter::invokeCheckText` (lines 392-442).  `text` is the slice
captured at dispatch time, `ranges` the misspelled sub-ranges computed by the
backend (already offset), `wordAtEnd` the oracle's current answer at the end
of the region, and `callback` the call-site-specific cache update (replace
for `checkCurrentText`, positional insert for `checkChangedText`), applied to
the filtered ranges and the current cache.  If the captured slice no longer
matches the document, the result is dropped and a full recheck is triggered
exactly when this was the last in-flight check. -/
def invokeCheckTextComplete (isSkippableWord : MisspelledWord → Bool)
    (callback : List MisspelledWord → List MisspelledWord → List MisspelledWord)
    (st : HighlighterState) (text : List Char) (textPosition textLength : Int)
    (ranges : List MisspelledWord) (wordAtEnd : MisspelledWord) : CheckTextResult :=
  let count := st.countOfCheckingTextAsync - 1
  if compareDocumentText st.lastPlainText text textPosition textLength ≠ 0 then
    ⟨{ st with countOfCheckingTextAsync := count }, decide (count = 0), none⟩
  else
    let filtered := filterSkippableWords isSkippableWord st.lastPlainText ranges
    let corrected := trailingBoundaryCorrection filtered textPosition textLength wordAtEnd
    ⟨{ st with countOfCheckingTextAsync := count,
               cachedRanges := callback corrected.1 st.cachedRanges },
     false, corrected.2⟩

/-- The dispatch side of `SpellingHighlighter::checkSingleWord` (lines
446-451): the word's text is captured from the document, and nothing is
dispatched when the word is skippable at dispatch time. -/
def checkSingleWordDispatch (isSkippableWord : MisspelledWord → Bool)
    (st : HighlighterState) (singleWord : MisspelledWord) : Option (List Char) :=
  if isSkippableWord singleWord then none
  else some (partDocumentText st.lastPlainText singleWord.1 singleWord.2)

/-- The `crl::on_main` completion handler of
`SpellingHighlighter::checkSingleWord` (lines 459-469), which runs only when
the backend reported the captured word misspelled: it inserts `singleWord`
into the cache at sorted position, with no staleness or skip re-check. -/
def checkSingleWordComplete (st : HighlighterState)
    (singleWord : MisspelledWord) : HighlighterState :=
  { st with cachedRanges := insertRangeSorted st.cachedRanges singleWord }

/-- Embeds the clamp of `SpellingHighlighter::getWordUnderPosition`, which clamps its argument with
`std::min(position, size())` before moving the cursor. -/
def clampPosition (position size : Int) : Int :=
  min position size

/-- Embeds `SpellingHighlighter::getWordUnderPosition`: query the word-boundary
oracle (`QTextCursor::WordUnderCursor`) at the clamped position. -/
def getWordUnderPosition (wordOracle : Int → MisspelledWord)
    (size position : Int) : MisspelledWord :=
  wordOracle (clampPosition position size)

/-- The `MisspelledSet` invariant claimed by the spec: positive lengths and
each span ending strictly before the next begins (strictly sorted,
non-overlapping, non-touching). -/
def wellFormedSet : List MisspelledWord → Bool
  | [] => true
  | [r] => decide (0 < r.2)
  | r :: r' :: rest =>
    decide (0 < r.2) && decide (EndOfWord r < r'.1) && wellFormedSet (r' :: rest)

/-- Sortedness of the cache by offset (non-strict). -/
def sortedByOffset : List MisspelledWord → Bool
  | [] => true
  | [_] => true
  | r :: r' :: rest => decide (r.1 ≤ r'.1) && sortedByOffset (r' :: rest)

end Spellchecker

namespace Hunspell

/-- Embeds `kMaxSyncableDictionaryWords` from `hunspell_controller.cpp`. -/
def kMaxSyncableDictionaryWords : Nat := 1300

/-- Embeds `QChar::Script`, abstracted to a numeric code. -/
abbrev Script := Nat

/-- Embeds `WordsMap = std::map<QChar::Script, std::vector<QString>>` as
an association list with unique keys. -/
abbrev WordsMap := List (Script × List String)

/-- Embeds the `_addedWords[script]` read access (`std::map::operator[]` defaults to an
empty vector). -/
def mapGet (m : WordsMap) (s : Script) : List String :=
  match m with
  | [] => []
  | (k, v) :: rest => if k = s then v else mapGet rest s

/-- Embeds the `_addedWords[script]` write access: replace the first entry with this
key, or append a fresh entry. -/
def mapSet (m : WordsMap) (s : Script) (v : List String) : WordsMap :=
  match m with
  | [] => [(s, v)]
  | (k, w) :: rest => if k = s then (k, v) :: rest else (k, w) :: mapSet rest s v

/-- The word count of `HunspellService::addWord`: `ranges::accumulate` of
the sizes of all per-script vectors of `_addedWords`. -/
def countWords (m : WordsMap) : Nat :=
  (m.map (fun kv => kv.2.length)).sum

/-- Embeds `HunspellService::addWord` (lines 362-374): a silent no-op when the
current count strictly exceeds `kMaxSyncableDictionaryWords`; otherwise the
word is appended to its script's vector and the file is rewritten.  The
returned `Bool` records whether the state was modified and `writeToFile`
invoked. -/
def addWord (script : String → Script) (m : WordsMap) (word : String) :
    WordsMap × Bool :=
  if countWords m > kMaxSyncableDictionaryWords then (m, false)
  else (mapSet m (script word) (mapGet m (script word) ++ [word]), true)

/-- The operations touching the two epoch counters of `HunspellService`:
the `*_epoch += 1` at the head of `updateLanguages`, the
`crl::on_main` completion of `updateLanguages` (which writes `*epoch = 0`
only when its `savedEpoch` is still current), and the increment/decrement
pair around `fillSuggestionList`. -/
inductive EpochOp where
  | updateStart : EpochOp
  | updateInstall : Int → EpochOp
  | suggestBegin : EpochOp
  | suggestEnd : EpochOp
deriving Repr, DecidableEq

/-- The two counters: `_epoch` and `_suggestionsEpoch`. -/
structure EpochState where
  epoch : Int
  suggestionsEpoch : Int
deriving Repr, DecidableEq

/-- One epoch-touching step of `HunspellService`, as written in
`updateLanguages` (lines 204-281) and `fillSuggestionList` (lines 324-346). -/
def epochStep : EpochOp → EpochState → EpochState
  | .updateStart, s => { s with epoch := s.epoch + 1 }
  | .updateInstall saved, s =>
    if saved = s.epoch then { s with epoch := 0 } else s
  | .suggestBegin, s => { s with suggestionsEpoch := s.suggestionsEpoch + 1 }
  | .suggestEnd, s => { s with suggestionsEpoch := s.suggestionsEpoch - 1 }

/-- The word-list normalisation of `HunspellService::readFile` (lines
422-436): split lines are sorted (`ranges::actions::sort`), consecutive
duplicates removed (`ranges::actions::unique`), empty and skippable words
dropped, and the result truncated to `kMaxSyncableDictionaryWords`. -/
def readFileWordList (isWordSkippable : String → Bool) (lines : List String) :
    List String :=
  (((lines.insertionSort (· ≤ ·)).destutter (· ≠ ·)).filter
      (fun word => !word.isEmpty && !isWordSkippable word)).take
    kMaxSyncableDictionaryWords

/-- Embeds `ranges::view::group_by` on equality of `WordScript`: maximal runs of
adjacent words with the same script. -/
def chunkByScript (script : String → Script) (l : List String) :
    List (List String) :=
  l.foldr
    (fun w groups =>
      match groups with
      | [] => [[w]]
      | g :: gs =>
        match g with
        | [] => [w] :: gs
        | x :: _ => if script x = script w then (w :: g) :: gs else [w] :: g :: gs)
    []

/-- Embeds the `std::map` insertion performed by `ranges::to<WordsMap>()` on the
zipped (script, group) pairs: an insert with an already-present key is a
no-op. -/
def mapInsertKeepFirst (m : WordsMap) (k : Script) (v : List String) : WordsMap :=
  match m with
  | [] => [(k, v)]
  | (k', v') :: rest =>
    if k' = k then (k', v') :: rest else (k', v') :: mapInsertKeepFirst rest k v

/-- The grouping tail of `HunspellService::readFile` (lines 442-462): group
the filtered words by script and build the `_addedWords` map. -/
def groupWords (script : String → Script) (words : List String) : WordsMap :=
  (chunkByScript script words).foldl
    (fun m g =>
      match g with
      | [] => m
      | x :: _ => mapInsertKeepFirst m (script x) g)
    []

/-- Embeds `HunspellService::readFile` (lines 400-464).  `isFile`, `fileSize` and
`openOk` stand for `QFileInfo::isFile`, `QFileInfo::size` and
`QFile::open`; `content` is the decoded file content
(`QString::fromUtf8(data)`), split on `kLineBreak` (a single newline on
non-Windows platforms).  On a missing, oversized or unopenable file, or
empty data, nothing is loaded. -/
def readFile (isWordSkippable : String → Bool) (script : String → Script)
    (isFile : Bool) (fileSize : Nat) (openOk : Bool) (content : String) :
    WordsMap :=
  if !isFile || fileSize > 100 * 1024 || !openOk then []
  else if content.isEmpty then []
  else groupWords script (readFileWordList isWordSkippable (content.splitOn "\n"))

end Hunspell

/-! ## Helper lemmas -/

namespace Hunspell

/-- Appending one word to a script's vector raises the total word count by
exactly one. -/
theorem countWords_mapSet (m : WordsMap) (s : Script) (w : String) :
    countWords (mapSet m s (mapGet m s ++ [w])) = countWords m + 1 := by
  induction m with
  | nil => simp [mapSet, mapGet, countWords]
  | cons kv rest ih =>
    obtain ⟨k, v⟩ := kv
    by_cases h : k = s
    · simp [mapSet, mapGet, h, countWords]
      omega
    · simp [mapSet, mapGet, h, countWords] at ih ⊢
      omega

end Hunspell

namespace Spellchecker

/-- Inserting at the first position with offset at least `w.1` preserves
sortedness-by-offset below any lower bound. -/
theorem sortedByOffset_insert_aux (w : MisspelledWord) (l : List MisspelledWord) :
    ∀ a : MisspelledWord, sortedByOffset (a :: l) = true → a.1 ≤ w.1 →
      sortedByOffset (a :: insertRangeSorted l w) = true := by
  induction l with
  | nil =>
    intro a _ haw
    simp [insertRangeSorted, sortedByOffset, haw]
  | cons r rs ih =>
    intro a hsorted haw
    have har : a.1 ≤ r.1 := by
      revert hsorted; cases rs <;> simp [sortedByOffset] <;> tauto
    have hrs : sortedByOffset (r :: rs) = true := by
      revert hsorted; cases rs <;> simp [sortedByOffset] <;> tauto
    rw [insertRangeSorted]
    by_cases hge : r.1 ≥ w.1
    · rw [if_pos hge]
      cases rs <;> simp [sortedByOffset] at hrs ⊢ <;> tauto
    · rw [if_neg hge]
      have hrw : r.1 ≤ w.1 := by omega
      have := ih r hrs hrw
      revert this
      cases h : insertRangeSorted rs w <;> simp [sortedByOffset] <;> tauto

/-- The batch insert of `checkChangedText` splices the whole batch at the
position of the first cached range with offset at least `posOfWord`. -/
theorem insertRangesAt_splice (cache : List MisspelledWord) (posOfWord : Int)
    (ranges : List MisspelledWord) :
    insertRangesAt cache posOfWord ranges =
      cache.takeWhile (fun r => !decide (r.1 ≥ posOfWord)) ++ ranges ++
        cache.dropWhile (fun r => !decide (r.1 ≥ posOfWord)) := by
  induction cache with
  | nil => simp [insertRangesAt]
  | cons r rs ih =>
    by_cases h : r.1 ≥ posOfWord <;>
      simp [insertRangesAt, List.takeWhile_cons, List.dropWhile_cons, h, ih]

end Spellchecker

/-! ## Claim theorems -/

/-- Claim C6, counterexample: starting from both epoch counters at zero, an
`updateLanguages` call bumps `_epoch` to `1`, and its completion (whose
`savedEpoch = 1` is still current) writes `*epoch = 0` — a value strictly
smaller than the counter's current value, so the counters are not
monotonically non-decreasing. -/
theorem claim_C6_counterexample :
    (Hunspell.epochStep (.updateInstall 1)
        (Hunspell.epochStep .updateStart ⟨0, 0⟩)).epoch
      < (Hunspell.epochStep .updateStart ⟨0, 0⟩).epoch := by
  decide

/-- Claim C6, amended: each epoch-touching step either leaves the counter at
or above its old value, or is one of the two deliberate decrements — the
install completion of `updateLanguages` resetting a still-current `_epoch`
to `0`, or the `_suggestionsEpoch--` at the end of `fillSuggestionList`. -/
theorem claim_C6_amended (op : Hunspell.EpochOp) (s : Hunspell.EpochState) :
    ((Hunspell.epochStep op s).epoch ≥ s.epoch ∨
      (op = .updateInstall s.epoch ∧ (Hunspell.epochStep op s).epoch = 0)) ∧
    ((Hunspell.epochStep op s).suggestionsEpoch ≥ s.suggestionsEpoch ∨
      (op = .suggestEnd ∧
        (Hunspell.epochStep op s).suggestionsEpoch = s.suggestionsEpoch - 1)) := by
  cases op with
  | updateStart => simp [Hunspell.epochStep]
  | updateInstall saved =>
    by_cases h : saved = s.epoch <;> simp [Hunspell.epochStep, h]
  | suggestBegin => simp [Hunspell.epochStep]
  | suggestEnd => simp [Hunspell.epochStep]

/-- Claim C8, counterexample: with the custom list exactly at its cap of
`kMaxSyncableDictionaryWords = 1300` words, `addWord` is *not* a no-op — the
guard `count > kMaxSyncableDictionaryWords` still fails, the word is
appended and the file rewritten, growing the list to 1301 words. -/
theorem claim_C8_counterexample :
    Hunspell.countWords [(0, List.replicate 1300 "a")] =
      Hunspell.kMaxSyncableDictionaryWords ∧
    (Hunspell.addWord (fun _ => 0) [(0, List.replicate 1300 "a")] "b").2 = true ∧
    Hunspell.countWords
        (Hunspell.addWord (fun _ => 0) [(0, List.replicate 1300 "a")] "b").1 =
      Hunspell.kMaxSyncableDictionaryWords + 1 := by
  have hlen : Hunspell.countWords [(0, List.replicate 1300 "a")] = 1300 := by
    rw [Hunspell.countWords, List.map_cons, List.map_nil, List.sum_cons,
      List.sum_nil, List.length_replicate]
    omega
  have hc : ¬ Hunspell.countWords [(0, List.replicate 1300 "a")] >
      Hunspell.kMaxSyncableDictionaryWords := by
    simp only [hlen, Hunspell.kMaxSyncableDictionaryWords]
    omega
  have hstep : Hunspell.addWord (fun _ => 0) [(0, List.replicate 1300 "a")] "b"
      = (Hunspell.mapSet [(0, List.replicate 1300 "a")] 0
          (Hunspell.mapGet [(0, List.replicate 1300 "a")] 0 ++ ["b"]), true) := by
    rw [Hunspell.addWord, if_neg hc]
  refine ⟨?_, ?_, ?_⟩
  · rw [hlen]
    rfl
  · rw [hstep]
  · rw [hstep]
    show Hunspell.countWords (Hunspell.mapSet _ _ _) = _
    rw [Hunspell.countWords_mapSet, hlen]
    rfl

/-- Claim C8, amended: `addWord` is a silent no-op exactly when the stored
word count *strictly* exceeds `kMaxSyncableDictionaryWords`; at or below the
cap it appends the word to the script-scoped list and rewrites the file, so
the in-memory list can reach `kMaxSyncableDictionaryWords + 1` words. -/
theorem claim_C8_amended (script : String → Hunspell.Script)
    (m : Hunspell.WordsMap) (w : String) :
    (Hunspell.countWords m > Hunspell.kMaxSyncableDictionaryWords →
      Hunspell.addWord script m w = (m, false)) ∧
    (Hunspell.countWords m ≤ Hunspell.kMaxSyncableDictionaryWords →
      (Hunspell.addWord script m w).2 = true ∧
      Hunspell.countWords (Hunspell.addWord script m w).1 =
        Hunspell.countWords m + 1) := by
  constructor
  · intro h
    simp [Hunspell.addWord, h]
  · intro h
    have hc : ¬ Hunspell.countWords m > Hunspell.kMaxSyncableDictionaryWords := by
      omega
    simp [Hunspell.addWord, hc, Hunspell.countWords_mapSet]

/-- Witness for the amended claim C8 at the empty map. -/
theorem claim_C8_amended_witness :
    (Hunspell.countWords [] > Hunspell.kMaxSyncableDictionaryWords →
      Hunspell.addWord (fun _ => 0) [] "x" = ([], false)) ∧
    (Hunspell.countWords [] ≤ Hunspell.kMaxSyncableDictionaryWords →
      (Hunspell.addWord (fun _ => 0) [] "x").2 = true ∧
      Hunspell.countWords (Hunspell.addWord (fun _ => 0) [] "x").1 =
        Hunspell.countWords [] + 1) :=
  claim_C8_amended (fun _ => 0) [] "x"

/-- Claim C9, counterexample: `getWordUnderPosition` clamps with
`std::min(position, size())`, which bounds the position from above only: a
negative position (reachable via the `_lastPosition--` adjustment in
`contentsChange` when a punctuation character is inserted at position 0)
passes through to the oracle unclamped, and the oracle's answer need not lie
within the document. -/
theorem claim_C9_counterexample :
    Spellchecker.clampPosition (-1) 5 = -1 ∧
    ¬ (0 ≤ Spellchecker.clampPosition (-1) 5) ∧
    Spellchecker.getWordUnderPosition (fun p => (p, 1)) 5 (-1) = (-1, 1) := by
  refine ⟨?_, by decide, ?_⟩ <;>
    simp [Spellchecker.clampPosition, Spellchecker.getWordUnderPosition]

/-- Claim C9, amended: the clamp bounds the position from above only: any
position past the document size is clamped to the size (so for non-negative
arguments the oracle is always queried in range), while positions at or
below the size — including negative ones — are passed through unchanged. -/
theorem claim_C9_amended (position size : Int) :
    (0 ≤ position → 0 ≤ size →
      0 ≤ Spellchecker.clampPosition position size ∧
        Spellchecker.clampPosition position size ≤ size) ∧
    (size ≤ position → Spellchecker.clampPosition position size = size) ∧
    (position ≤ size → Spellchecker.clampPosition position size = position) := by
  unfold Spellchecker.clampPosition
  refine ⟨fun h1 h2 => ⟨le_min h1 h2, min_le_right _ _⟩,
    fun h => min_eq_right h, fun h => min_eq_left h⟩

/-- Witness for the amended claim C9 at a position past the document end. -/
theorem claim_C9_amended_witness :
    (0 ≤ (7 : Int) → 0 ≤ (4 : Int) →
      0 ≤ Spellchecker.clampPosition 7 4 ∧ Spellchecker.clampPosition 7 4 ≤ 4) ∧
    ((4 : Int) ≤ 7 → Spellchecker.clampPosition 7 4 = 4) ∧
    ((7 : Int) ≤ 4 → Spellchecker.clampPosition 7 4 = 7) :=
  claim_C9_amended 7 4

/-- Claim C2, counterexample: the single-word insertion path does not
preserve the strictly-sorted/non-overlapping invariant.  From the reachable
state with cache `[(0,4)]` (buffer `"helo  x"`, `"helo"` misspelled),
deleting the space at position 5 keeps the cached span (the edit position
lies after the word, so the caret-adjacency rule retains it) and the
debounced `checkChangedText` re-checks the word under position 5 — `(0,4)`
again, by the boundary oracle's word-to-the-left quirk.  Its completion
inserts a second copy of `(0,4)` in front of the cached one. -/
theorem claim_C2_counterexample :
    Spellchecker.wellFormedSet [((0 : Int), (4 : Int))] = true ∧
    (Spellchecker.checkSingleWordComplete
        ⟨[((0 : Int), (4 : Int))], 0, "helo  x".toList⟩ (0, 4)).cachedRanges =
      [(0, 4), (0, 4)] ∧
    Spellchecker.wellFormedSet [((0 : Int), (4 : Int)), (0, 4)] = false := by
  refine ⟨by decide, ?_, by decide⟩
  simp [Spellchecker.checkSingleWordComplete, Spellchecker.insertRangeSorted]

/-- Claim C2, amended: the single-word insertion places its span before the
first cached span whose offset is at least the new span's offset, preserving
sortedness by offset (non-strict); the region-check merge instead splices
the *whole* returned batch before the first cached span whose offset is at
least the checked word's start offset (each span is not positioned at its
own offset).  Neither path restores the strict
sorted/non-overlapping/non-adjacent invariant, since a span equal to (or
overlapping) a cached one is simply inserted next to it. -/
theorem claim_C2_amended (cache batch : List Spellchecker.MisspelledWord)
    (w : Spellchecker.MisspelledWord) (posOfWord : Int)
    (h : Spellchecker.sortedByOffset cache = true) :
    Spellchecker.sortedByOffset (Spellchecker.insertRangeSorted cache w) = true ∧
    Spellchecker.insertRangesAt cache posOfWord batch =
      cache.takeWhile (fun r => !decide (r.1 ≥ posOfWord)) ++ batch ++
        cache.dropWhile (fun r => !decide (r.1 ≥ posOfWord)) := by
  refine ⟨?_, Spellchecker.insertRangesAt_splice cache posOfWord batch⟩
  cases cache with
  | nil => simp [Spellchecker.insertRangeSorted, Spellchecker.sortedByOffset]
  | cons r rs =>
    rw [Spellchecker.insertRangeSorted]
    by_cases hge : r.1 ≥ w.1
    · rw [if_pos hge]
      cases rs <;> simp [Spellchecker.sortedByOffset] at h ⊢ <;> tauto
    · rw [if_neg hge]
      exact Spellchecker.sortedByOffset_insert_aux w rs r h (by omega)

/-- Witness for the amended claim C2: inserting the single word `(3,2)` and,
separately, the batch `[(3,2), (7,1)]` at word offset 3, into the sorted
cache `[(0,2), (5,1)]`. -/
theorem claim_C2_amended_witness :
    Spellchecker.sortedByOffset
      (Spellchecker.insertRangeSorted [((0 : Int), (2 : Int)), (5, 1)] (3, 2)) =
        true ∧
    Spellchecker.insertRangesAt [((0 : Int), (2 : Int)), (5, 1)] 3
        [(3, 2), (7, 1)] =
      (List.takeWhile (fun r => !decide (r.1 ≥ 3))
          [((0 : Int), (2 : Int)), (5, 1)]) ++ [(3, 2), (7, 1)] ++
        (List.dropWhile (fun r => !decide (r.1 ≥ 3))
          [((0 : Int), (2 : Int)), (5, 1)]) :=
  claim_C2_amended [((0 : Int), (2 : Int)), (5, 1)] [(3, 2), (7, 1)] (3, 2) 3
    (by decide)

/-- Claim C1, counterexample: the single-word completion path has no
staleness guard.  A check of the word `(0,4)` (`"helo"`) is dispatched from
the buffer `"helo ab"`; by the time the backend's negative verdict returns,
the buffer is `"XXXX ab"` — `compareDocumentText` would report the checked
slice changed — yet the completion handler of `checkSingleWord` mutates the
cached set unconditionally, inserting `(0,4)`. -/
theorem claim_C1_counterexample :
    Spellchecker.checkSingleWordDispatch (fun _ => false)
        ⟨[], 1, "helo ab".toList⟩ (0, 4) = some "helo".toList ∧
    Spellchecker.compareDocumentText ("XXXX ab".toList) ("helo".toList) 0 4 ≠ 0 ∧
    (Spellchecker.checkSingleWordComplete
        ⟨[], 1, "XXXX ab".toList⟩ (0, 4)).cachedRanges = [(0, 4)] := by
  refine ⟨?_, by decide, ?_⟩
  · simp [Spellchecker.checkSingleWordDispatch, Spellchecker.partDocumentText]
  · simp [Spellchecker.checkSingleWordComplete, Spellchecker.insertRangeSorted]

/-- Claim C1, amended: the staleness guard holds on the region-check path
(`invokeCheckText`): when the captured slice no longer matches the document,
the result is discarded entirely — the cached set is untouched, no single
word is re-checked — and a fresh full recheck is triggered exactly when no
other check is still in flight.  The single-word path performs no such
check (see the counterexample). -/
theorem claim_C1_amended (isSkippableWord : Spellchecker.MisspelledWord → Bool)
    (callback : List Spellchecker.MisspelledWord → List Spellchecker.MisspelledWord →
      List Spellchecker.MisspelledWord)
    (st : Spellchecker.HighlighterState) (text : List Char)
    (textPosition textLength : Int) (ranges : List Spellchecker.MisspelledWord)
    (wordAtEnd : Spellchecker.MisspelledWord)
    (hstale : Spellchecker.compareDocumentText st.lastPlainText text
        textPosition textLength ≠ 0)
    (hcount : 1 ≤ st.countOfCheckingTextAsync) :
    (Spellchecker.invokeCheckTextComplete isSkippableWord callback st text
        textPosition textLength ranges wordAtEnd).state.cachedRanges =
      st.cachedRanges ∧
    (Spellchecker.invokeCheckTextComplete isSkippableWord callback st text
        textPosition textLength ranges wordAtEnd).singleRecheck = none ∧
    ((Spellchecker.invokeCheckTextComplete isSkippableWord callback st text
        textPosition textLength ranges wordAtEnd).fullRecheck = true ↔
      st.countOfCheckingTextAsync = 1) := by
  rw [Spellchecker.invokeCheckTextComplete, if_pos hstale]
  refine ⟨rfl, rfl, ?_⟩
  simp only [decide_eq_true_eq]
  omega

/-- Witness for the amended claim C1: a stale region result over the buffer
`"ab"` with a single in-flight check. -/
theorem claim_C1_amended_witness :
    (Spellchecker.invokeCheckTextComplete (fun _ => false) (fun r c => r ++ c)
        ⟨[(1, 2)], 1, "ab".toList⟩ "zz".toList 0 2 [(0, 1)]
        (0, 1)).state.cachedRanges = [(1, 2)] ∧
    (Spellchecker.invokeCheckTextComplete (fun _ => false) (fun r c => r ++ c)
        ⟨[(1, 2)], 1, "ab".toList⟩ "zz".toList 0 2 [(0, 1)]
        (0, 1)).singleRecheck = none ∧
    ((Spellchecker.invokeCheckTextComplete (fun _ => false) (fun r c => r ++ c)
        ⟨[(1, 2)], 1, "ab".toList⟩ "zz".toList 0 2 [(0, 1)]
        (0, 1)).fullRecheck = true ↔
      (Spellchecker.HighlighterState.mk [(1, 2)] 1
          "ab".toList).countOfCheckingTextAsync = 1) :=
  claim_C1_amended (fun _ => false) (fun r c => r ++ c)
    ⟨[(1, 2)], 1, "ab".toList⟩ "zz".toList 0 2 [(0, 1)] (0, 1)
    (by decide) (by decide)

/-- Claim C5: the trailing boundary correction of `invokeCheckText`, on a
fresh (non-stale) result whose last merged span ends exactly at the checked
region's end.  The word at that boundary is re-resolved in the current
buffer (`wordAtEnd`); if it does not also end at the region's end (the word
extends past the truncation point), the last span is dropped from the merged
result and `wordAtEnd` is handed to `checkSingleWord`; if its end coincides,
the merged result is kept whole and nothing is re-checked. -/
theorem claim_C5_trailing_correction
    (isSkippableWord : Spellchecker.MisspelledWord → Bool)
    (callback : List Spellchecker.MisspelledWord → List Spellchecker.MisspelledWord →
      List Spellchecker.MisspelledWord)
    (st : Spellchecker.HighlighterState) (text : List Char)
    (textPosition textLength : Int) (ranges : List Spellchecker.MisspelledWord)
    (wordAtEnd lastWord : Spellchecker.MisspelledWord)
    (hfresh : Spellchecker.compareDocumentText st.lastPlainText text
        textPosition textLength = 0)
    (hlast : (Spellchecker.filterSkippableWords isSkippableWord st.lastPlainText
        ranges).getLast? = some lastWord)
    (hend : Spellchecker.EndOfWord lastWord = textPosition + textLength) :
    (Spellchecker.EndOfWord wordAtEnd ≠ textPosition + textLength →
      (Spellchecker.invokeCheckTextComplete isSkippableWord callback st text
          textPosition textLength ranges wordAtEnd).state.cachedRanges =
        callback (Spellchecker.filterSkippableWords isSkippableWord
            st.lastPlainText ranges).dropLast st.cachedRanges ∧
      (Spellchecker.invokeCheckTextComplete isSkippableWord callback st text
          textPosition textLength ranges wordAtEnd).singleRecheck =
        some wordAtEnd) ∧
    (Spellchecker.EndOfWord wordAtEnd = textPosition + textLength →
      (Spellchecker.invokeCheckTextComplete isSkippableWord callback st text
          textPosition textLength ranges wordAtEnd).state.cachedRanges =
        callback (Spellchecker.filterSkippableWords isSkippableWord
            st.lastPlainText ranges) st.cachedRanges ∧
      (Spellchecker.invokeCheckTextComplete isSkippableWord callback st text
          textPosition textLength ranges wordAtEnd).singleRecheck = none) := by
  have hns : ¬ Spellchecker.compareDocumentText st.lastPlainText text
      textPosition textLength ≠ 0 := by
    simp [hfresh]
  have hmain : Spellchecker.invokeCheckTextComplete isSkippableWord callback st text
      textPosition textLength ranges wordAtEnd =
        ⟨{ st with
            countOfCheckingTextAsync := st.countOfCheckingTextAsync - 1,
            cachedRanges := callback
              (Spellchecker.trailingBoundaryCorrection
                (Spellchecker.filterSkippableWords isSkippableWord st.lastPlainText
                  ranges) textPosition textLength wordAtEnd).1 st.cachedRanges },
          false,
          (Spellchecker.trailingBoundaryCorrection
            (Spellchecker.filterSkippableWords isSkippableWord st.lastPlainText
              ranges) textPosition textLength wordAtEnd).2⟩ := by
    rw [Spellchecker.invokeCheckTextComplete, if_neg hns]
  have hc : Spellchecker.trailingBoundaryCorrection
      (Spellchecker.filterSkippableWords isSkippableWord st.lastPlainText ranges)
      textPosition textLength wordAtEnd =
      if Spellchecker.EndOfWord wordAtEnd ≠ textPosition + textLength then
        ((Spellchecker.filterSkippableWords isSkippableWord st.lastPlainText
            ranges).dropLast, some wordAtEnd)
      else
        (Spellchecker.filterSkippableWords isSkippableWord st.lastPlainText
          ranges, none) := by
    unfold Spellchecker.trailingBoundaryCorrection
    rw [hlast]
    simp [hend]
  constructor
  · intro hne
    rw [hmain, hc, if_pos hne]
    exact ⟨rfl, rfl⟩
  · intro heq
    have hnn : ¬ Spellchecker.EndOfWord wordAtEnd ≠ textPosition + textLength := by
      simp [heq]
    rw [hmain, hc, if_neg hnn]
    exact ⟨rfl, rfl⟩

/-- Witness for claim C5: buffer `"helo"`, region `[0,4)`, backend returns
`[(0,4)]`, and the word re-resolved at position 4 is `(0,6)` (the word grew
during the asynchronous gap), so the last span is dropped and `(0,6)`
re-checked alone. -/
theorem claim_C5_trailing_correction_witness :
    (Spellchecker.EndOfWord (0, 6) ≠ (0 : Int) + 4 →
      (Spellchecker.invokeCheckTextComplete (fun _ => false) (fun r _ => r)
          ⟨[], 1, "helo".toList⟩ "helo".toList 0 4 [(0, 4)]
          (0, 6)).state.cachedRanges =
        (fun r _ => r) (Spellchecker.filterSkippableWords (fun _ => false)
            ("helo".toList) [(0, 4)]).dropLast
          (Spellchecker.HighlighterState.mk [] 1 "helo".toList).cachedRanges ∧
      (Spellchecker.invokeCheckTextComplete (fun _ => false) (fun r _ => r)
          ⟨[], 1, "helo".toList⟩ "helo".toList 0 4 [(0, 4)]
          (0, 6)).singleRecheck = some (0, 6)) ∧
    (Spellchecker.EndOfWord (0, 6) = (0 : Int) + 4 →
      (Spellchecker.invokeCheckTextComplete (fun _ => false) (fun r _ => r)
          ⟨[], 1, "helo".toList⟩ "helo".toList 0 4 [(0, 4)]
          (0, 6)).state.cachedRanges =
        (fun r _ => r) (Spellchecker.filterSkippableWords (fun _ => false)
            ("helo".toList) [(0, 4)])
          (Spellchecker.HighlighterState.mk [] 1 "helo".toList).cachedRanges ∧
      (Spellchecker.invokeCheckTextComplete (fun _ => false) (fun r _ => r)
          ⟨[], 1, "helo".toList⟩ "helo".toList 0 4 [(0, 4)]
          (0, 6)).singleRecheck = none) :=
  claim_C5_trailing_correction (fun _ => false) (fun r _ => r)
    ⟨[], 1, "helo".toList⟩ "helo".toList 0 4 [(0, 4)] (0, 6) (0, 4)
    (by decide) (by decide) (by decide)

/-- Claim C7, counterexample: the skip predicate is *not* re-applied when a
single-word result returns.  A word that is not skippable at dispatch time
is dispatched, and its completion inserts it into the cache unconditionally
— even though the return-time skip predicate (the word acquired an
unspellcheckable formatting tag during the asynchronous gap) flags exactly
that span. -/
theorem claim_C7_counterexample :
    Spellchecker.checkSingleWordDispatch (fun _ => false)
        ⟨[], 1, "helo ab".toList⟩ (0, 4) = some "helo".toList ∧
    Spellchecker.checkSingleWordDispatch (fun r => decide (r = (0, 4)))
        ⟨[], 1, "helo ab".toList⟩ (0, 4) = none ∧
    (0, 4) ∈ (Spellchecker.checkSingleWordComplete
        ⟨[], 1, "helo ab".toList⟩ (0, 4)).cachedRanges := by
  refine ⟨?_, by decide, ?_⟩
  · simp [Spellchecker.checkSingleWordDispatch, Spellchecker.partDocumentText]
  · simp [Spellchecker.checkSingleWordComplete, Spellchecker.insertRangeSorted]

/-- Claim C7, amended: the defensive re-application of the skip predicate
exists only on the region-check path — every range surviving
`filterSkippableWords` when a region result returns is non-skippable at
return time — while the single-word path applies the predicate only before
dispatching: a word skippable at dispatch time is never dispatched, but no
re-check happens at its completion. -/
theorem claim_C7_amended (isSkippableWord : Spellchecker.MisspelledWord → Bool)
    (text : List Char) (ranges : List Spellchecker.MisspelledWord)
    (r : Spellchecker.MisspelledWord) (st : Spellchecker.HighlighterState)
    (w : Spellchecker.MisspelledWord) :
    (r ∈ Spellchecker.filterSkippableWords isSkippableWord text ranges →
      isSkippableWord r = false) ∧
    (isSkippableWord w = true →
      Spellchecker.checkSingleWordDispatch isSkippableWord st w = none) := by
  constructor
  · intro hr
    rw [Spellchecker.filterSkippableWords] at hr
    by_cases he : text.isEmpty
    · rw [if_pos he] at hr
      cases hr
    · rw [if_neg he] at hr
      have := List.of_mem_filter hr
      simpa using this
  · intro hw
    simp [Spellchecker.checkSingleWordDispatch, hw]

/-- Witness for the amended claim C7: the skip predicate flags offset 0;
the range `(3,4)` survives the return-time filter and is indeed
non-skippable, while the skippable word `(0,2)` is never dispatched. -/
theorem claim_C7_amended_witness :
    ((3, 4) ∈ Spellchecker.filterSkippableWords (fun r => decide (r.1 = 0))
        ("ab".toList) [(0, 2), (3, 4)] →
      (fun r : Spellchecker.MisspelledWord => decide (r.1 = 0)) (3, 4) = false) ∧
    ((fun r : Spellchecker.MisspelledWord => decide (r.1 = 0)) (0, 2) = true →
      Spellchecker.checkSingleWordDispatch (fun r => decide (r.1 = 0))
        ⟨[], 0, []⟩ (0, 2) = none) :=
  claim_C7_amended (fun r => decide (r.1 = 0)) ("ab".toList)
    [(0, 2), (3, 4)] (3, 4) ⟨[], 0, []⟩ (0, 2)

/-- Pointwise: the composition of the `contentsChange` shifts (right by
`added` before the filter, left by `removed` after it) equals the net
translation `netShift`. -/
theorem contentsChange_net (pos removed added : Int) (hadd : 0 ≤ added)
    (hrem : 0 ≤ removed) (r : Spellchecker.MisspelledWord) :
    (if removed > 0 then
        Spellchecker.shiftRange pos removed (-removed)
          (Spellchecker.addedShift pos removed added r)
      else Spellchecker.addedShift pos removed added r) =
      Spellchecker.netShift pos removed added r := by
  rcases r with ⟨a, b⟩
  unfold Spellchecker.addedShift Spellchecker.shiftRange Spellchecker.netShift
  split_ifs <;> simp_all [Prod.mk.injEq] <;> omega

/-- The `contentsChange` pipeline rewritten as a single filter over the
original cache followed by the net shift of each survivor. -/
theorem contentsChangeRanges_eq (cache : List Spellchecker.MisspelledWord)
    (pos removed added : Int) (w : Spellchecker.MisspelledWord)
    (hadd : 0 ≤ added) (hrem : 0 ≤ removed) :
    Spellchecker.contentsChangeRanges cache pos removed added w =
      (cache.filter (fun x => Spellchecker.contentsChangeFilter pos removed w
          (Spellchecker.addedShift pos removed added x))).map
        (Spellchecker.netShift pos removed added) := by
  simp only [Spellchecker.contentsChangeRanges]
  by_cases ha : added > 0 <;> by_cases hr : removed > 0
  · rw [if_pos ha, if_pos hr, List.map_filter, List.map_map]
    have h1 : (Spellchecker.contentsChangeFilter pos removed w ∘
        Spellchecker.shiftRange pos removed added) =
        (fun x => Spellchecker.contentsChangeFilter pos removed w
          (Spellchecker.addedShift pos removed added x)) := by
      funext x
      simp [Spellchecker.addedShift, ha, Function.comp]
    have h2 : (Spellchecker.shiftRange pos removed (-removed) ∘
        Spellchecker.shiftRange pos removed added) =
        Spellchecker.netShift pos removed added := by
      funext x
      have h := contentsChange_net pos removed added hadd hrem x
      rw [if_pos hr] at h
      simp only [Spellchecker.addedShift, if_pos ha] at h
      simpa [Function.comp] using h
    rw [h1, h2]
  · rw [if_pos ha, if_neg hr, List.map_filter]
    have h1 : (Spellchecker.contentsChangeFilter pos removed w ∘
        Spellchecker.shiftRange pos removed added) =
        (fun x => Spellchecker.contentsChangeFilter pos removed w
          (Spellchecker.addedShift pos removed added x)) := by
      funext x
      simp [Spellchecker.addedShift, ha, Function.comp]
    have h2 : Spellchecker.shiftRange pos removed added =
        Spellchecker.netShift pos removed added := by
      funext x
      have h := contentsChange_net pos removed added hadd hrem x
      rw [if_neg hr] at h
      simp only [Spellchecker.addedShift, if_pos ha] at h
      exact h
    rw [h1, h2]
  · rw [if_neg ha, if_pos hr]
    have h1 : (fun x => Spellchecker.contentsChangeFilter pos removed w
        (Spellchecker.addedShift pos removed added x)) =
        Spellchecker.contentsChangeFilter pos removed w := by
      funext x
      simp [Spellchecker.addedShift, ha]
    have h2 : Spellchecker.shiftRange pos removed (-removed) =
        Spellchecker.netShift pos removed added := by
      funext x
      have h := contentsChange_net pos removed added hadd hrem x
      rw [if_pos hr] at h
      simp only [Spellchecker.addedShift, if_neg ha] at h
      exact h
    rw [h1, h2]
  · rw [if_neg ha, if_neg hr]
    have h1 : (fun x => Spellchecker.contentsChangeFilter pos removed w
        (Spellchecker.addedShift pos removed added x)) =
        Spellchecker.contentsChangeFilter pos removed w := by
      funext x
      simp [Spellchecker.addedShift, ha]
    have h2 : Spellchecker.netShift pos removed added = id := by
      funext x
      have h := contentsChange_net pos removed added hadd hrem x
      rw [if_neg hr] at h
      simp only [Spellchecker.addedShift, if_neg ha] at h
      exact h.symm
    rw [h1, h2, List.map_id]

/-- Claim C3, counterexample: a cached span straddling the deleted region is
*not* always removed.  With cache `[(3,5)]`, an edit deleting 2 characters
at position 6 whose word-under-position is `(0,4)` (the boundary oracle
selects the word to the left of a cursor sitting between spaces): the span
`[3,8)` overlaps the deleted region `[6,8)`, yet it intersects the word
`(0,4)` and the edit position 6 lies strictly after that word's end, so the
caret-adjacency rule keeps it — unshifted and unremoved. -/
theorem claim_C3_counterexample :
    Spellchecker.IntersectsWordRanges (3, 5) 6 2 = true ∧
    Spellchecker.contentsChangeRanges [(3, 5)] 6 2 0 (0, 4) = [(3, 5)] := by
  constructor
  · decide
  · simp [Spellchecker.contentsChangeRanges, Spellchecker.contentsChangeFilter,
      Spellchecker.IntersectsWordRanges2, Spellchecker.IntersectsWordRanges,
      Spellchecker.EndOfWord, Spellchecker.shiftRange]

/-- Claim C3, amended: for a non-negative edit `(pos, removed, added)`, the
cache update is exactly a filter over the original spans followed by the net
shift: every surviving span with `offset >= pos + removed` is translated by
exactly `added - removed`, every surviving span with a smaller offset keeps
its offset and length, and a span overlapping the deleted region
`[pos, pos + removed)` can survive only through the caret-adjacency
exception: it intersects the word under the edit position and `pos` lies
strictly after that word's end. -/
theorem claim_C3_amended (cache : List Spellchecker.MisspelledWord)
    (pos removed added : Int) (w r : Spellchecker.MisspelledWord)
    (hadd : 0 ≤ added) (hrem : 0 ≤ removed)
    (hstraddle : removed > 0 ∧ Spellchecker.IntersectsWordRanges r pos removed = true)
    (hkept : Spellchecker.contentsChangeFilter pos removed w
        (Spellchecker.addedShift pos removed added r) = true) :
    Spellchecker.contentsChangeRanges cache pos removed added w =
      (cache.filter (fun x => Spellchecker.contentsChangeFilter pos removed w
          (Spellchecker.addedShift pos removed added x))).map
        (Spellchecker.netShift pos removed added) ∧
    (r.1 < pos + removed → Spellchecker.netShift pos removed added r = r) ∧
    (pos + removed ≤ r.1 →
      Spellchecker.netShift pos removed added r = (r.1 + added - removed, r.2)) ∧
    Spellchecker.IntersectsWordRanges2 r w = true ∧
    pos > Spellchecker.EndOfWord w := by
  obtain ⟨hr0, hint⟩ := hstraddle
  have hint' : r.1 ≤ pos + removed - 1 ∧ pos ≤ r.1 + r.2 - 1 := by
    unfold Spellchecker.IntersectsWordRanges Spellchecker.EndOfWord at hint
    simp only [Bool.not_eq_true', Bool.or_eq_false_iff, decide_eq_false_iff_not,
      not_lt] at hint
    omega
  have hlt : r.1 < pos + removed := by omega
  have haS : Spellchecker.addedShift pos removed added r = r := by
    unfold Spellchecker.addedShift Spellchecker.shiftRange
    split_ifs with h1 h2
    · exact absurd h2 (by omega)
    · rfl
    · rfl
  rw [haS] at hkept
  have hmain := contentsChangeRanges_eq cache pos removed added w hadd hrem
  have htail : Spellchecker.IntersectsWordRanges2 r w = true ∧
      pos > Spellchecker.EndOfWord w := by
    unfold Spellchecker.contentsChangeFilter at hkept
    by_cases hI : Spellchecker.IntersectsWordRanges2 r w = true
    · rw [if_pos hI] at hkept
      simp only [decide_eq_true_eq] at hkept
      exact ⟨hI, hkept⟩
    · rw [if_neg hI] at hkept
      simp only [Bool.not_eq_true] at hI
      rw [hI, hint] at hkept
      simp [hr0] at hkept
  refine ⟨hmain, ?_, ?_, htail.1, htail.2⟩
  · intro h
    unfold Spellchecker.netShift
    rw [if_neg (by omega)]
  · intro h
    unfold Spellchecker.netShift
    rw [if_pos (by omega)]

/-- Witness for the amended claim C3 at the counterexample's edit. -/
theorem claim_C3_amended_witness :
    Spellchecker.contentsChangeRanges [(3, 5)] 6 2 0 (0, 4) =
      (List.filter (fun x => Spellchecker.contentsChangeFilter 6 2 (0, 4)
          (Spellchecker.addedShift 6 2 0 x)) [(3, 5)]).map
        (Spellchecker.netShift 6 2 0) ∧
    ((3 : Int) < 6 + 2 → Spellchecker.netShift 6 2 0 (3, 5) = (3, 5)) ∧
    ((6 : Int) + 2 ≤ 3 →
      Spellchecker.netShift 6 2 0 (3, 5) = (3 + 0 - 2, 5)) ∧
    Spellchecker.IntersectsWordRanges2 (3, 5) (0, 4) = true ∧
    (6 : Int) > Spellchecker.EndOfWord (0, 4) :=
  claim_C3_amended [(3, 5)] 6 2 0 (0, 4) (3, 5)
    (by decide) (by decide) (by decide) (by decide)

/-- Claim C4, counterexample: a cached span overlapping the deleted region
is not unconditionally removed.  With an edit deleting 3 characters at
position 6 and word-under-position `(0,4)`: the span `[3,7)` overlaps the
deleted region `[6,9)`, but because it also overlaps the word `(0,4)` and
the edit position lies strictly after that word's end, the filter keeps
it — the word-under-cursor rule takes precedence over deleted-region
removal. -/
theorem claim_C4_counterexample :
    Spellchecker.contentsChangeFilter 6 3 (0, 4) (3, 4) = true ∧
    Spellchecker.IntersectsWordRanges (3, 4) 6 3 = true ∧
    (3 : Int) > 0 := by
  decide

/-- Claim C4, amended: the invalidate-phase filter keeps a span exactly when
either (i) it overlaps the word under the edit position and the position
lies strictly after that word's end, or (ii) it does not overlap that word
and does not overlap the deleted region; clause (i) takes precedence, so a
span overlapping both the word and the deleted region is kept whenever the
position is strictly past the word's end. -/
theorem claim_C4_amended (pos removed : Int)
    (w r : Spellchecker.MisspelledWord) :
    Spellchecker.contentsChangeFilter pos removed w r = true ↔
      ((Spellchecker.IntersectsWordRanges2 r w = true ∧
          pos > Spellchecker.EndOfWord w) ∨
        (Spellchecker.IntersectsWordRanges2 r w = false ∧
          ¬(removed > 0 ∧
            Spellchecker.IntersectsWordRanges r pos removed = true))) := by
  unfold Spellchecker.contentsChangeFilter
  cases hI : Spellchecker.IntersectsWordRanges2 r w <;>
    by_cases hrm : removed > 0 <;>
      simp [hI, hrm]

/-- The normalised custom word list is strictly sorted: sorting makes it
non-decreasing, removing consecutive duplicates makes adjacent entries
distinct, and both survive the filter and truncation. -/
theorem readFileWordList_pairwise (isWordSkippable : String → Bool)
    (lines : List String) :
    (Hunspell.readFileWordList isWordSkippable lines).Pairwise (· < ·) := by
  unfold Hunspell.readFileWordList
  have hsorted : (lines.insertionSort (· ≤ ·)).Sorted (· ≤ ·) :=
    List.sorted_insertionSort (· ≤ ·) lines
  have hsub : ((lines.insertionSort (· ≤ ·)).destutter (· ≠ ·)).Sublist
      (lines.insertionSort (· ≤ ·)) :=
    List.destutter_sublist (· ≠ ·) _
  have hle : ((lines.insertionSort (· ≤ ·)).destutter (· ≠ ·)).Pairwise
      (· ≤ ·) :=
    List.Pairwise.sublist hsub hsorted
  have hne : ((lines.insertionSort (· ≤ ·)).destutter (· ≠ ·)).Chain'
      (· ≠ ·) :=
    List.destutter_is_chain' (· ≠ ·) _
  have hchle : ((lines.insertionSort (· ≤ ·)).destutter (· ≠ ·)).Chain'
      (· ≤ ·) :=
    List.Pairwise.chain' hle
  have hlt : ((lines.insertionSort (· ≤ ·)).destutter (· ≠ ·)).Chain'
      (· < ·) := by
    rw [List.chain'_iff_get] at hne hchle ⊢
    intro i h
    exact lt_of_le_of_ne (hchle i h) (hne i h)
  have hpw : ((lines.insertionSort (· ≤ ·)).destutter (· ≠ ·)).Pairwise
      (· < ·) :=
    List.chain'_iff_pairwise.mp hlt
  exact List.Pairwise.sublist (List.take_sublist _ _) (List.Pairwise.filter _ hpw)

/-- Claim C10: at startup the custom word list is sorted, de-duplicated,
stripped of empty and skippable entries, and truncated to at most
`kMaxSyncableDictionaryWords = 1300` entries before being grouped by
script; and on a missing file, an unreadable file, a file larger than
100 KiB, or empty data, nothing is loaded and the added-words map starts
empty. -/
theorem claim_C10_readFile (isWordSkippable : String → Bool)
    (script : String → Hunspell.Script) (fileSize bigSize : Nat)
    (openOk : Bool) (content : String) (lines : List String) (w : String)
    (hbig : bigSize > 100 * 1024)
    (hw : w ∈ Hunspell.readFileWordList isWordSkippable lines) :
    Hunspell.readFile isWordSkippable script false fileSize openOk content = [] ∧
    Hunspell.readFile isWordSkippable script true bigSize openOk content = [] ∧
    Hunspell.readFile isWordSkippable script true fileSize false content = [] ∧
    Hunspell.readFile isWordSkippable script true fileSize openOk "" = [] ∧
    (Hunspell.readFileWordList isWordSkippable lines).Pairwise (· < ·) ∧
    w.isEmpty = false ∧
    isWordSkippable w = false ∧
    (Hunspell.readFileWordList isWordSkippable lines).length ≤
      Hunspell.kMaxSyncableDictionaryWords := by
  have hmem : w ∈ ((lines.insertionSort (· ≤ ·)).destutter (· ≠ ·)).filter
      (fun word => !word.isEmpty && !isWordSkippable word) :=
    (List.take_sublist _ _).subset hw
  have hprops := List.of_mem_filter hmem
  simp only [Bool.and_eq_true, Bool.not_eq_true'] at hprops
  refine ⟨?_, ?_, ?_, ?_, readFileWordList_pairwise isWordSkippable lines,
    hprops.1, hprops.2, ?_⟩
  · simp [Hunspell.readFile]
  · simp [Hunspell.readFile, hbig]
  · simp [Hunspell.readFile]
  · rw [Hunspell.readFile]
    split_ifs with h1 h2
    · rfl
    · rfl
    · exact absurd rfl h2
  · exact List.length_take_le _ _

/-- Witness for claim C10 on the line list `["a"]` with `"b"` skippable. -/
theorem claim_C10_readFile_witness :
    Hunspell.readFile (fun s => decide (s = "b")) (fun _ => 0) false 0 true "x"
        = [] ∧
    Hunspell.readFile (fun s => decide (s = "b")) (fun _ => 0) true 102401 true
        "x" = [] ∧
    Hunspell.readFile (fun s => decide (s = "b")) (fun _ => 0) true 0 false "x"
        = [] ∧
    Hunspell.readFile (fun s => decide (s = "b")) (fun _ => 0) true 0 true ""
        = [] ∧
    (Hunspell.readFileWordList (fun s => decide (s = "b"))
        ["a"]).Pairwise (· < ·) ∧
    "a".isEmpty = false ∧
    (fun s => decide (s = "b")) "a" = false ∧
    (Hunspell.readFileWordList (fun s => decide (s = "b"))
        ["a"]).length ≤ Hunspell.kMaxSyncableDictionaryWords :=
  claim_C10_readFile (fun s => decide (s = "b")) (fun _ => 0) 0 102401 true "x"
    ["a"] "a" (by decide) (by decide)
